import Mathlib

/-!
Verification development for the lisboaux-jobs repository.

The development shallowly embeds the URL-canonicalization utilities
(`src/lib/utils.ts`), the job mutation server actions
(`src/lib/actions/jobs.ts`), the Telegram channel sender
(`src/lib/telegram.ts`) and the ingestion webhook handler
(`src/app/api/webhooks/new-job/route.ts`).

Strings are modelled as `List Char` (with `String` wrappers at the
boundary).  The WHATWG `URL` / `URLSearchParams` platform objects used by
the source are modelled explicitly:

* a URL is a base part (scheme://host/path), an optional raw query string
  and an optional fragment; parsing splits at the first `#`, then at the
  first `?`, and validates the base's shape;
* the query pair list is obtained by splitting on `&`, dropping empty
  segments, splitting each segment at the first `=`, and percent-decoding
  (`+` meaning space);
* serialization of a pair list percent-encodes each key and value with the
  `application/x-www-form-urlencoded` serializer (alphanumerics and
  `*-._` kept, space to `+`, other characters to `%HH`; code points above
  255 are kept literal here, abstracting the UTF-8 byte encoding, which no
  claim depends on);
* crucially, as in the platform, the URL object's raw query text is
  rewritten from the live `searchParams` view only when that view is
  mutated (`delete`/`set`); reading (`forEach`, `size`) leaves the raw
  query untouched.
-/

namespace LisboaUX

/-! ### Percent encoding and decoding of query keys and values -/

/-- Uppercase hexadecimal digit character for a value below 16. -/
def hexDigitChar (n : Nat) : Char :=
  if n < 10 then Char.ofNat (48 + n) else Char.ofNat (55 + n)

/-- Character is an ASCII hexadecimal digit (either case). -/
def isHexChar (c : Char) : Bool :=
  (48 ≤ c.toNat && c.toNat ≤ 57) || (65 ≤ c.toNat && c.toNat ≤ 70) ||
    (97 ≤ c.toNat && c.toNat ≤ 102)

/-- Numeric value of a hexadecimal digit character. -/
def hexCharVal (c : Char) : Nat :=
  if 48 ≤ c.toNat && c.toNat ≤ 57 then c.toNat - 48
  else if 65 ≤ c.toNat && c.toNat ≤ 70 then c.toNat - 55
  else c.toNat - 87

/-- Characters the form-urlencoded serializer keeps literal. -/
def isFormSafe (c : Char) : Bool :=
  c.isAlphanum || c = '*' || c = '-' || c = '.' || c = '_'

/-- Form-urlencoded encoding of one character (Latin-1 abstraction for
code points above 255, see module comment). -/
def encodeChar (c : Char) : List Char :=
  if isFormSafe c then [c]
  else if c = ' ' then ['+']
  else if c.toNat ≤ 255 then
    ['%', hexDigitChar (c.toNat / 16), hexDigitChar (c.toNat % 16)]
  else [c]

/-- Form-urlencoded encoding of a string. -/
def encodeStr : List Char → List Char
  | [] => []
  | c :: rest => encodeChar c ++ encodeStr rest

/-- Form-urlencoded decoding: `+` becomes space, `%HH` becomes the coded
character, anything else (including a `%` not followed by two hex digits)
is literal. -/
def decodeStr : List Char → List Char
  | [] => []
  | '+' :: rest => ' ' :: decodeStr rest
  | '%' :: a :: b :: rest =>
    if isHexChar a && isHexChar b then
      Char.ofNat (16 * hexCharVal a + hexCharVal b) :: decodeStr rest
    else '%' :: decodeStr (a :: b :: rest)
  | c :: rest => c :: decodeStr rest

theorem hexDigitChar_isHex : ∀ n < 16, isHexChar (hexDigitChar n) = true := by decide

theorem hexCharVal_hexDigitChar : ∀ n < 16, hexCharVal (hexDigitChar n) = n := by decide

theorem isFormSafe_ne_special {c : Char} (h : isFormSafe c = true) :
    c ≠ '&' ∧ c ≠ '=' ∧ c ≠ '#' ∧ c ≠ '?' ∧ c ≠ '%' ∧ c ≠ '+' := by
  refine ⟨?_, ?_, ?_, ?_, ?_, ?_⟩ <;> rintro rfl <;> simp [isFormSafe] at h

theorem decodeStr_cons_other {c : Char} (h1 : c ≠ '+') (h2 : c ≠ '%')
    (rest : List Char) : decodeStr (c :: rest) = c :: decodeStr rest := by
  rw [decodeStr.eq_def]
  split
  · simp_all
  · simp_all
  · simp_all
  · simp_all

/-- Decoding undoes encoding, one character at a time. -/
theorem decodeStr_encodeChar_append (c : Char) (t : List Char) :
    decodeStr (encodeChar c ++ t) = c :: decodeStr t := by
  by_cases hs : isFormSafe c = true
  · have hne := isFormSafe_ne_special hs
    rw [encodeChar, if_pos hs, List.singleton_append]
    exact decodeStr_cons_other hne.2.2.2.2.2 hne.2.2.2.2.1 t
  · by_cases hsp : c = ' '
    · subst hsp
      rw [encodeChar, if_neg hs, if_pos rfl, List.singleton_append]
      rfl
    · by_cases hle : c.toNat ≤ 255
      · have hdiv : c.toNat / 16 < 16 := by omega
        have hmod : c.toNat % 16 < 16 := Nat.mod_lt _ (by omega)
        rw [encodeChar, if_neg hs, if_neg hsp, if_pos hle]
        have h1 : isHexChar (hexDigitChar (c.toNat / 16)) = true :=
          hexDigitChar_isHex _ hdiv
        have h2 : isHexChar (hexDigitChar (c.toNat % 16)) = true :=
          hexDigitChar_isHex _ hmod
        have hv1 : hexCharVal (hexDigitChar (c.toNat / 16)) = c.toNat / 16 :=
          hexCharVal_hexDigitChar _ hdiv
        have hv2 : hexCharVal (hexDigitChar (c.toNat % 16)) = c.toNat % 16 :=
          hexCharVal_hexDigitChar _ hmod
        rw [List.cons_append, List.cons_append, List.cons_append,
          List.nil_append]
        simp only [decodeStr, h1, h2, hv1, hv2, Bool.and_self, reduceIte]
        rw [Nat.div_add_mod, Char.ofNat_toNat]
      · have h1 : c ≠ '+' := by
          rintro rfl; exact hle (by decide)
        have h2 : c ≠ '%' := by
          rintro rfl; exact hle (by decide)
        rw [encodeChar, if_neg hs, if_neg hsp, if_neg hle,
          List.singleton_append]
        exact decodeStr_cons_other h1 h2 t

/-- Decoding undoes encoding, with a trailing context. -/
theorem decodeStr_encodeStr_append (s t : List Char) :
    decodeStr (encodeStr s ++ t) = s ++ decodeStr t := by
  induction s with
  | nil => rfl
  | cons c rest ih =>
    rw [encodeStr, List.append_assoc, decodeStr_encodeChar_append, ih]
    rfl

theorem decodeStr_encodeStr (s : List Char) : decodeStr (encodeStr s) = s := by
  have h := decodeStr_encodeStr_append s []
  simpa [decodeStr] using h

/-- Every character produced by the encoder avoids the URL delimiters. -/
theorem mem_encodeChar_ne_delims {c d : Char} (h : d ∈ encodeChar c) :
    d ≠ '&' ∧ d ≠ '=' ∧ d ≠ '#' ∧ d ≠ '?' := by
  have hhex : ∀ n < 16, hexDigitChar n ≠ '&' ∧ hexDigitChar n ≠ '=' ∧
      hexDigitChar n ≠ '#' ∧ hexDigitChar n ≠ '?' := by decide
  unfold encodeChar at h
  by_cases hs : isFormSafe c = true
  · rw [if_pos hs] at h
    simp at h
    subst h
    have := isFormSafe_ne_special hs
    exact ⟨this.1, this.2.1, this.2.2.1, this.2.2.2.1⟩
  · rw [if_neg hs] at h
    by_cases hsp : c = ' '
    · rw [if_pos hsp] at h
      simp at h
      subst h
      exact ⟨by decide, by decide, by decide, by decide⟩
    · rw [if_neg hsp] at h
      by_cases hle : c.toNat ≤ 255
      · rw [if_pos hle] at h
        have hdiv : c.toNat / 16 < 16 := by omega
        have hmod : c.toNat % 16 < 16 := Nat.mod_lt _ (by omega)
        simp at h
        rcases h with h | h | h
        · subst h; exact ⟨by decide, by decide, by decide, by decide⟩
        · subst h; exact hhex _ hdiv
        · subst h; exact hhex _ hmod
      · rw [if_neg hle] at h
        simp at h
        subst h
        refine ⟨?_, ?_, ?_, ?_⟩ <;> rintro rfl <;> exact hle (by decide)

theorem amp_not_mem_encodeStr (s : List Char) : '&' ∉ encodeStr s := by
  induction s with
  | nil => simp [encodeStr]
  | cons c rest ih =>
    rw [encodeStr]
    intro h
    rcases List.mem_append.mp h with h | h
    · exact (mem_encodeChar_ne_delims h).1 rfl
    · exact ih h

theorem eq_not_mem_encodeStr (s : List Char) : '=' ∉ encodeStr s := by
  induction s with
  | nil => simp [encodeStr]
  | cons c rest ih =>
    rw [encodeStr]
    intro h
    rcases List.mem_append.mp h with h | h
    · exact (mem_encodeChar_ne_delims h).2.1 rfl
    · exact ih h

theorem hash_not_mem_encodeStr (s : List Char) : '#' ∉ encodeStr s := by
  induction s with
  | nil => simp [encodeStr]
  | cons c rest ih =>
    rw [encodeStr]
    intro h
    rcases List.mem_append.mp h with h | h
    · exact (mem_encodeChar_ne_delims h).2.2.1 rfl
    · exact ih h

/-! ### Splitting helpers -/

/-- Split at the first occurrence of a separator: the part before it, and
optionally the part after it (`none` when the separator is absent). -/
def splitFirstOpt (sep : Char) : List Char → List Char × Option (List Char)
  | [] => ([], none)
  | c :: rest =>
    if c = sep then ([], some rest)
    else
      let p := splitFirstOpt sep rest
      (c :: p.1, p.2)

theorem splitFirstOpt_not_mem {sep : Char} {a : List Char} (h : sep ∉ a) :
    splitFirstOpt sep a = (a, none) := by
  induction a with
  | nil => rfl
  | cons c rest ih =>
    have hc : c ≠ sep := fun hc => h (hc ▸ List.mem_cons_self c rest)
    have hrest : sep ∉ rest := fun hm => h (List.mem_cons_of_mem c hm)
    simp [splitFirstOpt, hc, ih hrest]

theorem splitFirstOpt_append {sep : Char} {a : List Char} (h : sep ∉ a)
    (b : List Char) : splitFirstOpt sep (a ++ sep :: b) = (a, some b) := by
  induction a with
  | nil => simp [splitFirstOpt]
  | cons c rest ih =>
    have hc : c ≠ sep := fun hc => h (hc ▸ List.mem_cons_self c rest)
    have hrest : sep ∉ rest := fun hm => h (List.mem_cons_of_mem c hm)
    simp [splitFirstOpt, hc, ih hrest]

/-- Reconstructing the input from a first-separator split. -/
theorem splitFirstOpt_recombine {sep : Char} :
    ∀ {s a : List Char} {r : Option (List Char)},
      splitFirstOpt sep s = (a, r) →
      s = a ++ (match r with | none => [] | some b => sep :: b) ∧ sep ∉ a := by
  intro s
  induction s with
  | nil =>
    intro a r h
    simp [splitFirstOpt] at h
    obtain ⟨rfl, rfl⟩ := h
    exact ⟨rfl, by simp⟩
  | cons c rest ih =>
    intro a r h
    by_cases hc : c = sep
    · subst hc
      simp [splitFirstOpt] at h
      obtain ⟨rfl, rfl⟩ := h
      exact ⟨rfl, by simp⟩
    · simp only [splitFirstOpt, hc, if_false, reduceIte] at h
      rw [Prod.mk.injEq] at h
      obtain ⟨ha, hr⟩ := h
      subst ha
      subst hr
      obtain ⟨hre, hnm⟩ := ih (a := (splitFirstOpt sep rest).1)
        (r := (splitFirstOpt sep rest).2) rfl
      refine ⟨?_, ?_⟩
      · rw [List.cons_append]
        exact congrArg (c :: ·) hre
      · intro hm
        rcases List.mem_cons.mp hm with hm | hm
        · exact hc hm.symm
        · exact hnm hm

/-- Split on every occurrence of a separator (the result always has at
least one, possibly empty, segment). -/
def splitSep (sep : Char) : List Char → List (List Char)
  | [] => [[]]
  | c :: rest =>
    if c = sep then [] :: splitSep sep rest
    else
      match splitSep sep rest with
      | [] => [[c]]
      | s :: ss => (c :: s) :: ss

theorem splitSep_not_mem {sep : Char} {a : List Char} (h : sep ∉ a) :
    splitSep sep a = [a] := by
  induction a with
  | nil => rfl
  | cons c rest ih =>
    have hc : c ≠ sep := fun hc => h (hc ▸ List.mem_cons_self c rest)
    have hrest : sep ∉ rest := fun hm => h (List.mem_cons_of_mem c hm)
    simp [splitSep, hc, ih hrest]

theorem splitSep_append {sep : Char} {a : List Char} (h : sep ∉ a)
    (b : List Char) :
    splitSep sep (a ++ sep :: b) = a :: splitSep sep b := by
  induction a with
  | nil => simp [splitSep]
  | cons c rest ih =>
    have hc : c ≠ sep := fun hc => h (hc ▸ List.mem_cons_self c rest)
    have hrest : sep ∉ rest := fun hm => h (List.mem_cons_of_mem c hm)
    simp [splitSep, hc, ih hrest]

/-! ### Query strings as parameter pair lists -/

/-- A query parameter list: decoded (name, value) pairs in order. -/
abbrev Params := List (List Char × List Char)

/-- One `name=value` segment, split at the first `=` (no `=` means empty
value) and percent-decoded, as `URLSearchParams` parsing does. -/
def parsePair (seg : List Char) : List Char × List Char :=
  match splitFirstOpt '=' seg with
  | (k, none) => (decodeStr k, [])
  | (k, some v) => (decodeStr k, decodeStr v)

/-- Parse a raw query string into its decoded parameter pairs: split on
`&`, drop empty segments, split each segment at the first `=`. -/
def parseQuery (raw : List Char) : Params :=
  ((splitSep '&' raw).filter (fun seg => !seg.isEmpty)).map parsePair

/-- Serialize one pair in `application/x-www-form-urlencoded` form. -/
def serializePair (kv : List Char × List Char) : List Char :=
  encodeStr kv.1 ++ '=' :: encodeStr kv.2

/-- Serialize a parameter list, separating the pairs with `&`. -/
def serializeQuery : Params → List Char
  | [] => []
  | [kv] => serializePair kv
  | kv :: rest => serializePair kv ++ '&' :: serializeQuery rest

theorem amp_not_mem_serializePair (kv : List Char × List Char) :
    '&' ∉ serializePair kv := by
  intro h
  rcases List.mem_append.mp h with h | h
  · exact amp_not_mem_encodeStr _ h
  · rcases List.mem_cons.mp h with h | h
    · exact absurd h (by decide)
    · exact amp_not_mem_encodeStr _ h

theorem serializePair_ne_nil (kv : List Char × List Char) :
    serializePair kv ≠ [] := by
  intro h
  have := congrArg List.length h
  simp [serializePair] at this

theorem parsePair_serializePair (kv : List Char × List Char) :
    parsePair (serializePair kv) = kv := by
  rw [serializePair, parsePair,
    splitFirstOpt_append (eq_not_mem_encodeStr kv.1) (encodeStr kv.2)]
  simp [decodeStr_encodeStr]

theorem hash_not_mem_serializePair (kv : List Char × List Char) :
    '#' ∉ serializePair kv := by
  intro h
  rcases List.mem_append.mp h with h | h
  · exact hash_not_mem_encodeStr _ h
  · rcases List.mem_cons.mp h with h | h
    · exact absurd h (by decide)
    · exact hash_not_mem_encodeStr _ h

theorem hash_not_mem_serializeQuery (ps : Params) :
    '#' ∉ serializeQuery ps := by
  induction ps with
  | nil => simp [serializeQuery]
  | cons kv rest ih =>
    cases rest with
    | nil => exact hash_not_mem_serializePair kv
    | cons r rs =>
      have heq : serializeQuery (kv :: r :: rs) =
          serializePair kv ++ '&' :: serializeQuery (r :: rs) := by
        rw [serializeQuery]
        simp
      rw [heq]
      intro h
      rcases List.mem_append.mp h with h | h
      · exact hash_not_mem_serializePair kv h
      · rcases List.mem_cons.mp h with h | h
        · exact absurd h (by decide)
        · exact ih h

/-- Parsing a serialized parameter list recovers it exactly. -/
theorem parseQuery_serializeQuery (ps : Params) :
    parseQuery (serializeQuery ps) = ps := by
  induction ps with
  | nil => rfl
  | cons kv rest ih =>
    cases rest with
    | nil =>
      rw [serializeQuery]
      simp only [parseQuery]
      rw [splitSep_not_mem (by simpa using amp_not_mem_serializePair kv)]
      have hne : (serializePair kv).isEmpty = false := by
        cases h : serializePair kv with
        | nil => exact absurd h (serializePair_ne_nil kv)
        | cons a b => rfl
      simp [hne, parsePair_serializePair]
    | cons r rs =>
      have heq : serializeQuery (kv :: r :: rs) =
          serializePair kv ++ '&' :: serializeQuery (r :: rs) := by
        rw [serializeQuery]
        simp
      rw [heq]
      simp only [parseQuery]
      rw [splitSep_append (amp_not_mem_serializePair kv) _]
      have hne : (serializePair kv).isEmpty = false := by
        cases h : serializePair kv with
        | nil => exact absurd h (serializePair_ne_nil kv)
        | cons a b => rfl
      simp only [List.filter_cons, hne, Bool.not_false, if_pos,
        List.map_cons, parsePair_serializePair]
      have : ((splitSep '&' (serializeQuery (r :: rs))).filter
          (fun seg => !seg.isEmpty)).map parsePair = r :: rs := ih
      rw [this]

/-! ### The URL object model

A parsed URL keeps its base part (scheme, host and path), the raw query
text after `?` (if any) and the raw fragment after `#` (if any).  The raw
query is retained verbatim — as in the WHATWG URL object — and is
re-serialized from the parameter list only when the `searchParams` view is
mutated. -/

/-- Model of a parsed WHATWG URL. -/
structure UrlModel where
  base : List Char
  query : Option (List Char)
  frag : Option (List Char)
deriving DecidableEq, Repr

/-- Characters allowed in a scheme after its initial letter. -/
def schemeChar (c : Char) : Bool :=
  c.isAlphanum || c = '+' || c = '-' || c = '.'

/-- After the initial letter: scheme characters, then `://`, then a
nonempty host (its first character is not `/`). -/
def schemeRest : List Char → Bool
  | ':' :: '/' :: '/' :: h :: _ => decide (h ≠ '/')
  | c :: rest => schemeChar c && schemeRest rest
  | [] => false

/-- Validity of the pre-query part of a URL string: an alphabetic scheme,
`://`, a nonempty host, and no `?` or `#` anywhere (automatic for parser
inputs, required for reconstruction).  This abstracts the WHATWG parser's
acceptance of hierarchical URLs; the source only ever feeds it `http(s)`
job links. -/
def baseShape : List Char → Bool
  | c :: rest => c.isAlpha && schemeRest rest
  | [] => false

def validBase (p : List Char) : Bool :=
  baseShape p && p.all (fun c => decide (c ≠ '?') && decide (c ≠ '#'))

/-- Model of `new URL(s)`: split at the first `#` into pre-fragment and
fragment, split the pre-fragment at the first `?` into base and query,
and demand a valid base.  `none` models the constructor throwing. -/
def parseURL (s : List Char) : Option UrlModel :=
  let ph := splitFirstOpt '#' s
  let pq := splitFirstOpt '?' ph.1
  if validBase pq.1 then some ⟨pq.1, pq.2, ph.2⟩ else none

/-- Model of `url.toString()`: base, then `?` and the raw query when
present, then `#` and the fragment when present. -/
def urlToString (u : UrlModel) : List Char :=
  u.base ++ (match u.query with | none => [] | some q => '?' :: q)
    ++ (match u.frag with | none => [] | some f => '#' :: f)

/-- Model of the `url.searchParams` read view: the decoded pairs of the
raw query (an absent query reads as no pairs). -/
def searchParams (u : UrlModel) : Params :=
  parseQuery (match u.query with | none => [] | some q => q)

theorem validBase_no_query_hash {p : List Char} (h : validBase p = true) :
    '?' ∉ p ∧ '#' ∉ p := by
  rw [validBase, Bool.and_eq_true] at h
  have hall := List.all_eq_true.mp h.2
  constructor
  · intro hm
    have := hall _ hm
    simp at this
  · intro hm
    have := hall _ hm
    simp at this

theorem urlToString_none_none (b : List Char) :
    urlToString ⟨b, none, none⟩ = b := by
  simp [urlToString]

theorem urlToString_some_none (b qq : List Char) :
    urlToString ⟨b, some qq, none⟩ = b ++ '?' :: qq := by
  simp [urlToString]

theorem urlToString_none_some (b ff : List Char) :
    urlToString ⟨b, none, some ff⟩ = b ++ '#' :: ff := by
  simp [urlToString]

theorem urlToString_some_some (b qq ff : List Char) :
    urlToString ⟨b, some qq, some ff⟩ = (b ++ '?' :: qq) ++ '#' :: ff := by
  simp [urlToString]

/-- Parsing inverts printing for any model value with a valid base and a
hash-free query. -/
theorem parseURL_urlToString (u : UrlModel) (hb : validBase u.base = true)
    (hq : ∀ q, u.query = some q → '#' ∉ q) :
    parseURL (urlToString u) = some u := by
  obtain ⟨hnq, hnh⟩ := validBase_no_query_hash hb
  obtain ⟨b, q, f⟩ := u
  cases q with
  | none =>
    cases f with
    | none =>
      rw [urlToString_none_none, parseURL]
      simp only [splitFirstOpt_not_mem hnh, splitFirstOpt_not_mem hnq, hb,
        if_pos]
    | some ff =>
      rw [urlToString_none_some, parseURL]
      simp only [splitFirstOpt_append hnh ff, splitFirstOpt_not_mem hnq, hb,
        if_pos]
  | some qq =>
    have hqq : '#' ∉ qq := hq qq rfl
    have hnh2 : '#' ∉ b ++ '?' :: qq := by
      intro hm
      rcases List.mem_append.mp hm with hm | hm
      · exact hnh hm
      · rcases List.mem_cons.mp hm with hm | hm
        · exact absurd hm (by decide)
        · exact hqq hm
    cases f with
    | none =>
      rw [urlToString_some_none, parseURL]
      simp only [splitFirstOpt_not_mem hnh2, splitFirstOpt_append hnq qq, hb,
        if_pos]
    | some ff =>
      rw [urlToString_some_some, parseURL]
      simp only [splitFirstOpt_append hnh2 ff, splitFirstOpt_append hnq qq,
        hb, if_pos]

/-- A successful parse decomposes the input exactly. -/
theorem parseURL_inv {s : List Char} {u : UrlModel}
    (h : parseURL s = some u) :
    urlToString u = s ∧ validBase u.base = true ∧
      (∀ q, u.query = some q → '#' ∉ q) := by
  simp only [parseURL] at h
  by_cases hv : validBase (splitFirstOpt '?' (splitFirstOpt '#' s).1).1 = true
  · rw [if_pos hv, Option.some.injEq] at h
    obtain ⟨h1, hm1⟩ := splitFirstOpt_recombine
      (rfl : splitFirstOpt '#' s =
        ((splitFirstOpt '#' s).1, (splitFirstOpt '#' s).2))
    obtain ⟨h2, hm2⟩ := splitFirstOpt_recombine
      (rfl : splitFirstOpt '?' (splitFirstOpt '#' s).1 =
        ((splitFirstOpt '?' (splitFirstOpt '#' s).1).1,
          (splitFirstOpt '?' (splitFirstOpt '#' s).1).2))
    subst h
    refine ⟨?_, hv, ?_⟩
    · cases hc2 : (splitFirstOpt '?' (splitFirstOpt '#' s).1).2 with
      | none =>
        rw [hc2] at h2
        simp only [List.append_nil] at h2
        cases hc1 : (splitFirstOpt '#' s).2 with
        | none =>
          rw [hc1] at h1
          simp only [List.append_nil] at h1
          rw [urlToString_none_none]
          exact (h1.trans h2).symm
        | some ff =>
          rw [hc1] at h1
          rw [urlToString_none_some]
          exact (h1.trans (congrArg (· ++ '#' :: ff) h2)).symm
      | some qq =>
        rw [hc2] at h2
        cases hc1 : (splitFirstOpt '#' s).2 with
        | none =>
          rw [hc1] at h1
          simp only [List.append_nil] at h1
          rw [urlToString_some_none]
          exact (h1.trans h2).symm
        | some ff =>
          rw [hc1] at h1
          rw [urlToString_some_some]
          exact (h1.trans (congrArg (· ++ '#' :: ff) h2)).symm
    · intro q hqe
      have hqe2 : (splitFirstOpt '?' (splitFirstOpt '#' s).1).2 = some q := hqe
      rw [hqe2] at h2
      intro hm
      exact hm1 (h2 ▸ List.mem_append_right _ (List.mem_cons_of_mem _ hm))
  · rw [if_neg hv] at h
    exact Option.noConfusion h

/-! ### The URL utilities of src/lib/utils.ts -/

/-- Boolean test that `p` is an initial segment of `l`. -/
def startsWithChars : List Char → List Char → Bool
  | [], _ => true
  | _ :: _, [] => false
  | p :: ps, c :: cs => p = c && startsWithChars ps cs

/-- The `TRACKING_PARAM_PATTERNS` regex list: an anchored prefix test for
`utm_` and anchored exact tests for the other names. -/
def TRACKING_PARAM_PATTERNS : List (List Char → Bool) :=
  [fun k => startsWithChars "utm_".data k,
   fun k => k = "ref".data,
   fun k => k = "fbclid".data,
   fun k => k = "gclid".data,
   fun k => k = "gad_source".data,
   fun k => k = "msclkid".data,
   fun k => k = "twclid".data,
   fun k => k = "li_fat_id".data,
   fun k => k = "mc_eid".data,
   fun k => k = "oly_enc_id".data,
   fun k => k = "_hsenc".data,
   fun k => k = "_hsmi".data,
   fun k => k = "vero_id".data,
   fun k => k = "mkt_tok".data]

/-- The `isTrackingParam` helper: some pattern matches the key. -/
def isTrackingParam (key : List Char) : Bool :=
  TRACKING_PARAM_PATTERNS.any (fun pat => pat key)

/-- Model of `searchParams.delete(key)` on the pair list: removes every
pair with that name. -/
def deleteKey (k : List Char) (ps : Params) : Params :=
  ps.filter (fun kv => decide (kv.1 ≠ k))

/-- The effect on the pair list of the `paramsToDelete.forEach(delete)`
loop. -/
def deleteKeys (keys : List (List Char)) (ps : Params) : Params :=
  keys.foldl (fun acc k => deleteKey k acc) ps

/-- The query component a `searchParams` mutation writes back into the
URL: `none` (no `?`) when the list is empty, its serialization otherwise. -/
def canonQuery (ps : Params) : Option (List Char) :=
  if ps.isEmpty then none else some (serializeQuery ps)

/-- Model of `cleanTrackingParams` (src/lib/utils.ts): parse, collect the
keys of tracking parameters in iteration order, delete them, and print.
When no key is collected the `forEach(delete)` loop performs no mutation,
so the URL keeps its raw query text; otherwise each `delete` rewrites the
query from the remaining pairs.  A parse failure returns the input
unchanged (the `catch` branch). -/
def cleanTrackingParams (s : List Char) : List Char :=
  match parseURL s with
  | none => s
  | some u =>
    let ps := searchParams u
    let paramsToDelete := (ps.filter (fun kv => isTrackingParam kv.1)).map
      (fun kv => kv.1)
    if paramsToDelete.isEmpty then urlToString u
    else urlToString ⟨u.base, canonQuery (deleteKeys paramsToDelete ps), u.frag⟩

/-- Model of `searchParams.set(name, value)` when a pair with the name
exists: replace the first and drop the rest. -/
def setParamGo (k v : List Char) : Params → Params
  | [] => []
  | kv :: rest =>
    if kv.1 = k then (k, v) :: deleteKey k rest else kv :: setParamGo k v rest

/-- Model of `searchParams.set(name, value)`: overwrite the first pair
with that name and drop duplicates, or append when absent. -/
def setParam (ps : Params) (k v : List Char) : Params :=
  if ps.any (fun kv => decide (kv.1 = k)) then setParamGo k v ps
  else ps ++ [(k, v)]

/-- Model of `buildJobUrl` (src/lib/utils.ts): parse (no catch — a parse
failure propagates as an exception, modelled as `none`), set
`utm_source=LisboaUX`, and print. -/
def buildJobUrl (s : List Char) : Option (List Char) :=
  match parseURL s with
  | none => none
  | some u =>
    let ps := setParam (searchParams u) "utm_source".data "LisboaUX".data
    some (urlToString ⟨u.base, canonQuery ps, u.frag⟩)

/-- Model of `hasQueryParams` (src/lib/utils.ts): `searchParams.size > 0`,
`false` on parse failure. -/
def hasQueryParams (s : List Char) : Bool :=
  match parseURL s with
  | none => false
  | some u => 0 < (searchParams u).length

/-- Model of `removeAllQueryParams` (src/lib/utils.ts): `url.search = ''`
clears the query component; the input is returned on parse failure. -/
def removeAllQueryParams (s : List Char) : List Char :=
  match parseURL s with
  | none => s
  | some u => urlToString ⟨u.base, none, u.frag⟩

/-- String-level wrapper of `cleanTrackingParams`. -/
def cleanTrackingParamsStr (s : String) : String :=
  String.mk (cleanTrackingParams s.data)

/-- String-level wrapper of `buildJobUrl`. -/
def buildJobUrlStr (s : String) : Option String :=
  (buildJobUrl s.data).map String.mk

/-- String-level wrapper of `hasQueryParams`. -/
def hasQueryParamsStr (s : String) : Bool :=
  hasQueryParams s.data

/-- String-level wrapper of `removeAllQueryParams`. -/
def removeAllQueryParamsStr (s : String) : String :=
  String.mk (removeAllQueryParams s.data)

/-! ### Algebraic facts about the canonicalizer -/

theorem deleteKeys_eq_filter (keys : List (List Char)) (ps : Params) :
    deleteKeys keys ps = ps.filter (fun kv => decide (kv.1 ∉ keys)) := by
  induction keys generalizing ps with
  | nil =>
    simp only [deleteKeys, List.foldl_nil, List.not_mem_nil, not_false_iff,
      decide_True]
    exact (List.filter_true ps).symm
  | cons k ks ih =>
    rw [deleteKeys, List.foldl_cons]
    have : ks.foldl (fun acc kk => deleteKey kk acc) (deleteKey k ps) =
        deleteKeys ks (deleteKey k ps) := rfl
    rw [this, ih, deleteKey, List.filter_filter]
    apply List.filter_congr
    intro kv _
    by_cases h1 : kv.1 = k
    · simp [h1]
    · by_cases h2 : kv.1 ∈ ks <;> simp [h1, h2]

/-- The delete loop over the collected tracking keys removes exactly the
tracking pairs, keeping the rest in order. -/
theorem deleteKeys_tracking (ps : Params) :
    deleteKeys ((ps.filter (fun kv => isTrackingParam kv.1)).map
      (fun kv => kv.1)) ps =
    ps.filter (fun kv => !isTrackingParam kv.1) := by
  rw [deleteKeys_eq_filter]
  apply List.filter_congr
  intro kv hkv
  by_cases ht : isTrackingParam kv.1 = true
  · have hm : kv.1 ∈ (ps.filter (fun kv => isTrackingParam kv.1)).map
        (fun kv => kv.1) :=
      List.mem_map.mpr ⟨kv, List.mem_filter.mpr ⟨hkv, ht⟩, rfl⟩
    simp [hm, ht]
  · have hm : kv.1 ∉ (ps.filter (fun kv => isTrackingParam kv.1)).map
        (fun kv => kv.1) := by
      intro hm
      obtain ⟨kv2, hkv2, hfst⟩ := List.mem_map.mp hm
      have := (List.mem_filter.mp hkv2).2
      rw [hfst] at this
      exact ht this
    simp [hm, ht]

/-- When no tracking key is collected, every pair is non-tracking. -/
theorem no_tracking_of_toDelete_empty {ps : Params}
    (h : ((ps.filter (fun kv => isTrackingParam kv.1)).map
      (fun kv => kv.1)).isEmpty = true) :
    ps.filter (fun kv => !isTrackingParam kv.1) = ps := by
  rw [List.isEmpty_iff, List.map_eq_nil_iff] at h
  have hall := List.filter_eq_nil_iff.mp h
  apply List.filter_eq_self.mpr
  intro kv hkv
  simpa using hall kv hkv

theorem searchParams_canonQuery (b : List Char) (f : Option (List Char))
    (ps : Params) : searchParams ⟨b, canonQuery ps, f⟩ = ps := by
  rw [canonQuery]
  by_cases h : ps.isEmpty = true
  · rw [if_pos h, List.isEmpty_iff.mp h]
    rfl
  · rw [if_neg h]
    exact parseQuery_serializeQuery ps

theorem canonQuery_hash_free (ps : Params) :
    ∀ q, canonQuery ps = some q → '#' ∉ q := by
  intro q hq
  rw [canonQuery] at hq
  by_cases h : ps.isEmpty = true
  · rw [if_pos h] at hq
    exact Option.noConfusion hq
  · rw [if_neg h, Option.some.injEq] at hq
    rw [← hq]
    exact hash_not_mem_serializeQuery ps

/-- Shorthand for the collected tracking keys of a parameter list. -/
def toDelete (ps : Params) : List (List Char) :=
  (ps.filter (fun kv => isTrackingParam kv.1)).map (fun kv => kv.1)

theorem cleanTrackingParams_parse_none {s : List Char}
    (h : parseURL s = none) : cleanTrackingParams s = s := by
  simp only [cleanTrackingParams, h]

theorem cleanTrackingParams_no_tracking {s : List Char} {u : UrlModel}
    (hp : parseURL s = some u)
    (hdel : (toDelete (searchParams u)).isEmpty = true) :
    cleanTrackingParams s = s := by
  simp only [cleanTrackingParams, hp, toDelete] at hdel ⊢
  rw [if_pos hdel]
  exact (parseURL_inv hp).1

theorem cleanTrackingParams_tracking {s : List Char} {u : UrlModel}
    (hp : parseURL s = some u)
    (hdel : (toDelete (searchParams u)).isEmpty = false) :
    cleanTrackingParams s = urlToString ⟨u.base,
      canonQuery ((searchParams u).filter (fun kv => !isTrackingParam kv.1)),
      u.frag⟩ := by
  simp only [cleanTrackingParams, hp, toDelete] at hdel ⊢
  rw [hdel]
  simp only [Bool.false_eq_true, if_false, reduceIte]
  rw [deleteKeys_tracking]

/-- The parsed form of a cleaned URL, in both the mutation and the
no-mutation case. -/
theorem parseURL_cleanTrackingParams {s : List Char} {u : UrlModel}
    (hp : parseURL s = some u) :
    ∃ u2, parseURL (cleanTrackingParams s) = some u2 ∧
      u2.base = u.base ∧ u2.frag = u.frag ∧
      searchParams u2 =
        (searchParams u).filter (fun kv => !isTrackingParam kv.1) := by
  obtain ⟨hts, hvb, hhf⟩ := parseURL_inv hp
  cases hdel : (toDelete (searchParams u)).isEmpty with
  | true =>
    refine ⟨u, ?_, rfl, rfl, ?_⟩
    · rw [cleanTrackingParams_no_tracking hp hdel]
      exact hp
    · exact (no_tracking_of_toDelete_empty hdel).symm
  | false =>
    refine ⟨⟨u.base, canonQuery ((searchParams u).filter
      (fun kv => !isTrackingParam kv.1)), u.frag⟩, ?_, rfl, rfl, ?_⟩
    · rw [cleanTrackingParams_tracking hp hdel]
      exact parseURL_urlToString _ hvb (canonQuery_hash_free _)
    · exact searchParams_canonQuery _ _ _

/-- A cleaned URL has no tracking keys left to collect. -/
theorem toDelete_filter_not_tracking (ps : Params) :
    (toDelete (ps.filter (fun kv => !isTrackingParam kv.1))).isEmpty
      = true := by
  rw [toDelete, List.isEmpty_iff, List.map_eq_nil_iff, List.filter_filter]
  apply List.filter_eq_nil_iff.mpr
  intro kv _
  by_cases h : isTrackingParam kv.1 = true <;> simp [h]

/-- Cleaning is idempotent at the character-list level. -/
theorem cleanTrackingParams_idem (s : List Char) :
    cleanTrackingParams (cleanTrackingParams s) = cleanTrackingParams s := by
  cases hp : parseURL s with
  | none =>
    have h := cleanTrackingParams_parse_none hp
    rw [h, h]
  | some u =>
    cases hdel : (toDelete (searchParams u)).isEmpty with
    | true =>
      have h := cleanTrackingParams_no_tracking hp hdel
      rw [h, h]
    | false =>
      obtain ⟨hts, hvb, hhf⟩ := parseURL_inv hp
      have hcs := cleanTrackingParams_tracking hp hdel
      have hparse2 : parseURL (cleanTrackingParams s) = some ⟨u.base,
          canonQuery ((searchParams u).filter
            (fun kv => !isTrackingParam kv.1)), u.frag⟩ := by
        rw [hcs]
        exact parseURL_urlToString _ hvb (canonQuery_hash_free _)
      have hdel2 : (toDelete (searchParams (⟨u.base,
          canonQuery ((searchParams u).filter
            (fun kv => !isTrackingParam kv.1)), u.frag⟩ : UrlModel))).isEmpty
          = true := by
        rw [searchParams_canonQuery]
        exact toDelete_filter_not_tracking _
      rw [cleanTrackingParams_no_tracking hparse2 hdel2]

/-! ### Facts about setParam (searchParams.set) -/

theorem setParamGo_ne_nil (k v : List Char) (kv : List Char × List Char)
    (rest : Params) : setParamGo k v (kv :: rest) ≠ [] := by
  rw [setParamGo]
  by_cases h : kv.1 = k
  · rw [if_pos h]
    exact List.cons_ne_nil _ _
  · rw [if_neg h]
    exact List.cons_ne_nil _ _

theorem setParam_ne_nil (ps : Params) (k v : List Char) :
    setParam ps k v ≠ [] := by
  rw [setParam]
  by_cases h : ps.any (fun kv => decide (kv.1 = k)) = true
  · rw [if_pos h]
    cases ps with
    | nil => simp at h
    | cons kv rest => exact setParamGo_ne_nil k v kv rest
  · rw [if_neg h]
    exact List.append_ne_nil_of_right_ne_nil _ (List.cons_ne_nil _ _)

theorem mem_setParamGo (k v : List Char) (ps : Params)
    (h : ps.any (fun kv => decide (kv.1 = k)) = true) :
    (k, v) ∈ setParamGo k v ps := by
  induction ps with
  | nil => simp at h
  | cons kv rest ih =>
    rw [setParamGo]
    by_cases hk : kv.1 = k
    · rw [if_pos hk]
      exact List.mem_cons_self _ _
    · rw [if_neg hk]
      rw [List.any_cons] at h
      have hrest : rest.any (fun kv => decide (kv.1 = k)) = true := by
        rcases Bool.or_eq_true_iff.mp h with h | h
        · exact absurd (of_decide_eq_true h) hk
        · exact h
      exact List.mem_cons_of_mem _ (ih hrest)

theorem mem_setParam (ps : Params) (k v : List Char) :
    (k, v) ∈ setParam ps k v := by
  rw [setParam]
  by_cases h : ps.any (fun kv => decide (kv.1 = k)) = true
  · rw [if_pos h]
    exact mem_setParamGo k v ps h
  · rw [if_neg h]
    exact List.mem_append_right _ (List.mem_cons_self _ _)

theorem filter_not_tracking_setParamGo (k v : List Char)
    (hk : isTrackingParam k = true) (ps : Params) :
    (setParamGo k v ps).filter (fun kv => !isTrackingParam kv.1) =
      ps.filter (fun kv => !isTrackingParam kv.1) := by
  induction ps with
  | nil => rfl
  | cons kv rest ih =>
    rw [setParamGo]
    by_cases h : kv.1 = k
    · rw [if_pos h]
      have hkv : isTrackingParam kv.1 = true := by rw [h]; exact hk
      rw [List.filter_cons, List.filter_cons]
      simp only [hk, hkv, Bool.not_true, if_neg, Bool.false_eq_true,
        not_false_iff, reduceIte]
      rw [deleteKey, List.filter_filter]
      apply List.filter_congr
      intro kv2 _
      by_cases h2 : kv2.1 = k
      · have : isTrackingParam kv2.1 = true := by rw [h2]; exact hk
        simp [this, h2, hk]
      · simp [h2]
    · rw [if_neg h]
      rw [List.filter_cons, List.filter_cons, ih]

theorem filter_not_tracking_setParam (ps : Params) (k v : List Char)
    (hk : isTrackingParam k = true) :
    (setParam ps k v).filter (fun kv => !isTrackingParam kv.1) =
      ps.filter (fun kv => !isTrackingParam kv.1) := by
  rw [setParam]
  by_cases h : ps.any (fun kv => decide (kv.1 = k)) = true
  · rw [if_pos h]
    exact filter_not_tracking_setParamGo k v hk ps
  · rw [if_neg h, List.filter_append]
    simp [hk]

theorem isTrackingParam_eq (k : List Char) :
    isTrackingParam k =
      (startsWithChars "utm_".data k || decide (k = "ref".data) ||
        decide (k = "fbclid".data) || decide (k = "gclid".data) ||
        decide (k = "gad_source".data) || decide (k = "msclkid".data) ||
        decide (k = "twclid".data) || decide (k = "li_fat_id".data) ||
        decide (k = "mc_eid".data) || decide (k = "oly_enc_id".data) ||
        decide (k = "_hsenc".data) || decide (k = "_hsmi".data) ||
        decide (k = "vero_id".data) || decide (k = "mkt_tok".data)) := by
  simp [isTrackingParam, TRACKING_PARAM_PATTERNS, Bool.or_assoc]

theorem toDelete_isEmpty_false_of_any {ps : Params}
    (h : ps.any (fun kv => isTrackingParam kv.1) = true) :
    (toDelete ps).isEmpty = false := by
  obtain ⟨kv, hm, ht⟩ := List.any_eq_true.mp h
  rw [toDelete, List.isEmpty_eq_false]
  exact List.ne_nil_of_mem
    (List.mem_map.mpr ⟨kv, List.mem_filter.mpr ⟨hm, ht⟩, rfl⟩)

/-! ### Claim theorems for the URL canonicalizer -/

/-- C6: for every parseable URL, `clean` returns a URL in which no query
parameter remains whose name has the case-sensitive `utm_` prefix or
exactly equals one of the thirteen listed tracking names, while every
non-tracking parameter is preserved with its value and in its original
order. -/
theorem C6_clean_strips_tracking_params (s : String) (u : UrlModel)
    (h : parseURL s.data = some u) :
    ∃ u2, parseURL (cleanTrackingParamsStr s).data = some u2 ∧
      searchParams u2 = (searchParams u).filter (fun kv =>
        !(startsWithChars "utm_".data kv.1 || decide (kv.1 = "ref".data) ||
          decide (kv.1 = "fbclid".data) || decide (kv.1 = "gclid".data) ||
          decide (kv.1 = "gad_source".data) ||
          decide (kv.1 = "msclkid".data) || decide (kv.1 = "twclid".data) ||
          decide (kv.1 = "li_fat_id".data) || decide (kv.1 = "mc_eid".data) ||
          decide (kv.1 = "oly_enc_id".data) ||
          decide (kv.1 = "_hsenc".data) || decide (kv.1 = "_hsmi".data) ||
          decide (kv.1 = "vero_id".data) ||
          decide (kv.1 = "mkt_tok".data))) ∧
      ∀ kv ∈ searchParams u2,
        startsWithChars "utm_".data kv.1 = false ∧ kv.1 ≠ "ref".data ∧
          kv.1 ≠ "fbclid".data ∧ kv.1 ≠ "gclid".data ∧
          kv.1 ≠ "gad_source".data ∧ kv.1 ≠ "msclkid".data ∧
          kv.1 ≠ "twclid".data ∧ kv.1 ≠ "li_fat_id".data ∧
          kv.1 ≠ "mc_eid".data ∧ kv.1 ≠ "oly_enc_id".data ∧
          kv.1 ≠ "_hsenc".data ∧ kv.1 ≠ "_hsmi".data ∧
          kv.1 ≠ "vero_id".data ∧ kv.1 ≠ "mkt_tok".data := by
  obtain ⟨u2, hp2, _, _, hsp⟩ := parseURL_cleanTrackingParams h
  refine ⟨u2, hp2, ?_, ?_⟩
  · rw [hsp]
    apply List.filter_congr
    intro kv _
    rw [isTrackingParam_eq]
  · intro kv hm
    rw [hsp] at hm
    have hnt : isTrackingParam kv.1 = false := by
      have := (List.mem_filter.mp hm).2
      cases hh : isTrackingParam kv.1
      · rfl
      · rw [hh] at this
        exact absurd this (by decide)
    rw [isTrackingParam_eq] at hnt
    simp only [Bool.or_eq_false_iff, decide_eq_false_iff_not] at hnt
    exact ⟨hnt.1.1.1.1.1.1.1.1.1.1.1.1.1, hnt.1.1.1.1.1.1.1.1.1.1.1.1.2,
      hnt.1.1.1.1.1.1.1.1.1.1.1.2, hnt.1.1.1.1.1.1.1.1.1.1.2,
      hnt.1.1.1.1.1.1.1.1.1.2, hnt.1.1.1.1.1.1.1.1.2, hnt.1.1.1.1.1.1.1.2,
      hnt.1.1.1.1.1.1.2, hnt.1.1.1.1.1.2, hnt.1.1.1.1.2, hnt.1.1.1.2,
      hnt.1.1.2, hnt.1.2, hnt.2⟩

/-- Witness for C6 at a concrete URL mixing tracking and ordinary
parameters. -/
theorem C6_witness :
    ∃ u2, parseURL (cleanTrackingParamsStr
        "https://a.com/?x=1&utm_source=n&ref=z&y=2").data = some u2 ∧
      searchParams u2 = (searchParams
        ⟨"https://a.com/".data, some "x=1&utm_source=n&ref=z&y=2".data,
          none⟩).filter (fun kv =>
        !(startsWithChars "utm_".data kv.1 || decide (kv.1 = "ref".data) ||
          decide (kv.1 = "fbclid".data) || decide (kv.1 = "gclid".data) ||
          decide (kv.1 = "gad_source".data) ||
          decide (kv.1 = "msclkid".data) || decide (kv.1 = "twclid".data) ||
          decide (kv.1 = "li_fat_id".data) || decide (kv.1 = "mc_eid".data) ||
          decide (kv.1 = "oly_enc_id".data) ||
          decide (kv.1 = "_hsenc".data) || decide (kv.1 = "_hsmi".data) ||
          decide (kv.1 = "vero_id".data) ||
          decide (kv.1 = "mkt_tok".data))) ∧
      ∀ kv ∈ searchParams u2,
        startsWithChars "utm_".data kv.1 = false ∧ kv.1 ≠ "ref".data ∧
          kv.1 ≠ "fbclid".data ∧ kv.1 ≠ "gclid".data ∧
          kv.1 ≠ "gad_source".data ∧ kv.1 ≠ "msclkid".data ∧
          kv.1 ≠ "twclid".data ∧ kv.1 ≠ "li_fat_id".data ∧
          kv.1 ≠ "mc_eid".data ∧ kv.1 ≠ "oly_enc_id".data ∧
          kv.1 ≠ "_hsenc".data ∧ kv.1 ≠ "_hsmi".data ∧
          kv.1 ≠ "vero_id".data ∧ kv.1 ≠ "mkt_tok".data :=
  C6_clean_strips_tracking_params "https://a.com/?x=1&utm_source=n&ref=z&y=2"
    ⟨"https://a.com/".data, some "x=1&utm_source=n&ref=z&y=2".data, none⟩
    (by decide)

/-- C8: `clean` is idempotent: cleaning an already-cleaned URL string
returns it unchanged, for every input string. -/
theorem C8_clean_idempotent (s : String) :
    cleanTrackingParamsStr (cleanTrackingParamsStr s) =
      cleanTrackingParamsStr s :=
  congrArg String.mk (cleanTrackingParams_idem s.data)

/-- C7 counterexample: on the unparseable input `not a url`, `buildJobUrl`
does not return the original string — as it has no try/catch, the parse
exception propagates (modelled by `none`), contradicting the claim that
all of the presentation-layer functions return the input unchanged. -/
theorem C7_counterexample :
    parseURL "not a url".data = none ∧
      buildJobUrlStr "not a url" = none ∧
      buildJobUrlStr "not a url" ≠ some "not a url" := by
  refine ⟨by decide, by decide, by decide⟩

/-- C7 (amended): on every input that fails to parse as a URL,
`cleanTrackingParams` and `removeAllQueryParams` return the original
string unchanged and `hasQueryParams` returns `false` without throwing;
`buildJobUrl`, however, has no catch and propagates the parse exception
(modelled as `none`) instead of returning the input. -/
theorem C7_parse_failure_policy (s : String) (h : parseURL s.data = none) :
    cleanTrackingParamsStr s = s ∧ removeAllQueryParamsStr s = s ∧
      hasQueryParamsStr s = false ∧ buildJobUrlStr s = none := by
  refine ⟨?_, ?_, ?_, ?_⟩
  · show String.mk (cleanTrackingParams s.data) = s
    rw [cleanTrackingParams_parse_none h]
  · show String.mk (removeAllQueryParams s.data) = s
    rw [removeAllQueryParams, h]
  · show hasQueryParams s.data = false
    rw [hasQueryParams, h]
  · show (buildJobUrl s.data).map String.mk = none
    rw [buildJobUrl, h]
    rfl

/-- Witness for C7 at the concrete unparseable input `not a url`. -/
theorem C7_witness :
    cleanTrackingParamsStr "not a url" = "not a url" ∧
      removeAllQueryParamsStr "not a url" = "not a url" ∧
      hasQueryParamsStr "not a url" = false ∧
      buildJobUrlStr "not a url" = none :=
  C7_parse_failure_policy "not a url" (by decide)

/-- C10 counterexample: for the parseable URL `https://x.com/?a=1&&b=2`
(a raw query that is not in canonical serialized form), cleaning the
attributed link yields `https://x.com/?a=1&b=2`, while cleaning the
original leaves its raw query untouched (`clean` performs no mutation when
no tracking key is present), so `clean(withAttribution(u)) ≠ clean(u)`. -/
theorem C10_counterexample :
    buildJobUrlStr "https://x.com/?a=1&&b=2" =
        some "https://x.com/?a=1&b=2&utm_source=LisboaUX" ∧
      cleanTrackingParamsStr "https://x.com/?a=1&b=2&utm_source=LisboaUX" =
        "https://x.com/?a=1&b=2" ∧
      cleanTrackingParamsStr "https://x.com/?a=1&&b=2" =
        "https://x.com/?a=1&&b=2" ∧
      ("https://x.com/?a=1&b=2" : String) ≠ "https://x.com/?a=1&&b=2" := by
  refine ⟨by decide, by decide, by decide, by decide⟩

/-- C10 (amended): the attribution parameter is named `utm_source`, which
matches the canonicalizer's `utm_` pattern; for every parseable URL the
cleaned attributed link equals the canonical print with exactly the
non-tracking parameters — so attribution never survives — and the string
equation `clean(withAttribution(u)) = clean(u)` holds whenever the URL's
query is already in canonical serialized form or contains a tracking
parameter (it can fail for non-canonical raw queries, which `clean` leaves
verbatim but `withAttribution` re-serializes). -/
theorem C10_attribution_roundtrip :
    isTrackingParam "utm_source".data = true ∧
    ∀ (s t : String) (u : UrlModel), parseURL s.data = some u →
      buildJobUrlStr s = some t →
      (cleanTrackingParamsStr t).data = urlToString ⟨u.base,
          canonQuery ((searchParams u).filter
            (fun kv => !isTrackingParam kv.1)), u.frag⟩ ∧
      (u.query = canonQuery (searchParams u) ∨
          (searchParams u).any (fun kv => isTrackingParam kv.1) = true →
        cleanTrackingParamsStr t = cleanTrackingParamsStr s) := by
  refine ⟨by decide, ?_⟩
  intro s t u hp hb
  have hvb := (parseURL_inv hp).2.1
  simp only [buildJobUrlStr, buildJobUrl, hp, Option.map_some',
    Option.some.injEq] at hb
  have ht : t.data = urlToString ⟨u.base,
      canonQuery (setParam (searchParams u) "utm_source".data
        "LisboaUX".data), u.frag⟩ := by
    rw [← hb]
  have hpt : parseURL t.data = some ⟨u.base,
      canonQuery (setParam (searchParams u) "utm_source".data
        "LisboaUX".data), u.frag⟩ := by
    rw [ht]
    exact parseURL_urlToString _ hvb (canonQuery_hash_free _)
  have hspt : searchParams (⟨u.base,
      canonQuery (setParam (searchParams u) "utm_source".data
        "LisboaUX".data), u.frag⟩ : UrlModel) =
      setParam (searchParams u) "utm_source".data "LisboaUX".data :=
    searchParams_canonQuery _ _ _
  have hdelt : (toDelete (searchParams (⟨u.base,
      canonQuery (setParam (searchParams u) "utm_source".data
        "LisboaUX".data), u.frag⟩ : UrlModel))).isEmpty = false := by
    rw [hspt]
    apply toDelete_isEmpty_false_of_any
    exact List.any_eq_true.mpr ⟨_, mem_setParam _ _ _, by decide⟩
  have hct : cleanTrackingParams t.data = urlToString ⟨u.base,
      canonQuery ((searchParams u).filter
        (fun kv => !isTrackingParam kv.1)), u.frag⟩ := by
    rw [cleanTrackingParams_tracking hpt hdelt]
    rw [hspt, filter_not_tracking_setParam _ _ _ (by decide)]
  refine ⟨hct, ?_⟩
  intro hor
  have hclean_s : cleanTrackingParams s.data = urlToString ⟨u.base,
      canonQuery ((searchParams u).filter
        (fun kv => !isTrackingParam kv.1)), u.frag⟩ := by
    cases hdel : (toDelete (searchParams u)).isEmpty with
    | false => exact cleanTrackingParams_tracking hp hdel
    | true =>
      rcases hor with hq | hany
      · rw [cleanTrackingParams_no_tracking hp hdel,
          no_tracking_of_toDelete_empty hdel, ← hq]
        have := (parseURL_inv hp).1
        rw [← this]
      · rw [toDelete_isEmpty_false_of_any hany] at hdel
        exact Bool.noConfusion hdel
  show String.mk (cleanTrackingParams t.data) =
    String.mk (cleanTrackingParams s.data)
  rw [hct, hclean_s]

/-- Witness for C10 at the concrete canonical-query URL
`https://a.com/?x=1`. -/
theorem C10_witness :
    isTrackingParam "utm_source".data = true ∧
      cleanTrackingParamsStr "https://a.com/?x=1&utm_source=LisboaUX" =
        cleanTrackingParamsStr "https://a.com/?x=1" :=
  ⟨C10_attribution_roundtrip.1,
    (C10_attribution_roundtrip.2 "https://a.com/?x=1"
      "https://a.com/?x=1&utm_source=LisboaUX"
      ⟨"https://a.com/".data, some "x=1".data, none⟩
      (by decide) (by decide)).2 (Or.inl (by decide))⟩

/-! ### The Telegram sender of src/lib/telegram.ts -/

/-- Model of `String.replace` with a one-character pattern: every
occurrence of the character is replaced (one pass, no rescanning of the
replacement). -/
def replaceChar (target : Char) (rep : List Char) : List Char → List Char
  | [] => []
  | c :: rest => (if c = target then rep else [c]) ++ replaceChar target rep rest

/-- Model of `escapeHtml` (src/lib/telegram.ts): three chained replaces,
`&` to `&amp;`, then `<` to `&lt;`, then `>` to `&gt;`. -/
def escapeHtml (s : List Char) : List Char :=
  replaceChar '>' "&gt;".data
    (replaceChar '<' "&lt;".data (replaceChar '&' "&amp;".data s))

/-- Character-wise view of the chained replaces. -/
def escMap (c : Char) : List Char :=
  if c = '&' then "&amp;".data
  else if c = '<' then "&lt;".data
  else if c = '>' then "&gt;".data
  else [c]

def escapeChars : List Char → List Char
  | [] => []
  | c :: rest => escMap c ++ escapeChars rest

/-- The job snapshot the Telegram sender receives (the `Job` interface of
src/lib/telegram.ts). -/
structure TgJob where
  id : Int
  title : List Char
  company : List Char
  location : List Char
  url : List Char
  short_code : Option (List Char)
deriving DecidableEq, Repr

/-- The link the message uses: the short-code redirect when available,
else the job's direct URL. -/
def telegramJobUrl (job : TgJob) : List Char :=
  match job.short_code with
  | some code => "https://jobs.lisboaux.com/j/".data ++ code
  | none => job.url

/-- The composed Telegram message body: bold escaped title, escaped
company, pin emoji and escaped location, then the link verbatim. -/
def telegramMessage (job : TgJob) : List Char :=
  "<b>".data ++ escapeHtml job.title ++ "</b>\n".data ++
    escapeHtml job.company ++ "\n📍".data ++ escapeHtml job.location ++
    "\n".data ++ telegramJobUrl job

/-- Outcome of the Telegram API call, as seen by `sendToTelegram`. -/
inductive TgOutcome
  | apiOk
  | apiErr (description : List Char)
  | netThrow (message : List Char)
deriving DecidableEq, Repr

/-- The `{ success, error? }` result `sendToTelegram` returns. -/
structure TgResult where
  success : Bool
  error : Option (List Char)
deriving DecidableEq, Repr

/-- Model of `sendToTelegram` (src/lib/telegram.ts): missing configuration
(either environment variable unset) fails fast with a recorded error; an
`ok: false` API response records its description; a thrown network error
is caught and its message recorded; it never throws. -/
def sendToTelegram (botToken channelId : Option (List Char))
    (outcome : TgOutcome) (_job : TgJob) : TgResult :=
  match botToken, channelId with
  | some _, some _ =>
    match outcome with
    | TgOutcome.apiOk => ⟨true, none⟩
    | TgOutcome.apiErr d => ⟨false, some d⟩
    | TgOutcome.netThrow m => ⟨false, some m⟩
  | _, _ => ⟨false, some "Missing Telegram configuration".data⟩

/-! ### The ingestion webhook handler of src/app/api/webhooks/new-job/route.ts -/

/-- Outcome of the Slack webhook fetch. -/
inductive SlackOutcome
  | ok
  | httpErr
  | netThrow
deriving DecidableEq, Repr

/-- The observable outcome of one webhook delivery: HTTP status, response
body marker, whether the Telegram channel was attempted, and its result
when attempted. -/
structure PostResult where
  status : Nat
  body : List Char
  telegramAttempted : Bool
  telegramResult : Option TgResult
deriving DecidableEq, Repr

/-- Model of the `POST` handler: secret check (401 on mismatch); payload
parse (a throw lands in the outer catch, 500); missing Slack
configuration returns 500 before any send; the Slack message is built
first — `buildJobUrl(job.url)` can itself throw into the outer catch —
then the Slack fetch: a network throw gives 500 via the catch, a non-ok
response gives 500, and only after a successful Slack send is Telegram
attempted, whose failure is logged but leaves the 200 response intact. -/
def POST (secretOk : Bool) (payload : Option TgJob)
    (slackWebhookUrl : Option (List Char)) (slackOutcome : SlackOutcome)
    (tgBotToken tgChannelId : Option (List Char)) (tgOutcome : TgOutcome) :
    PostResult :=
  if ¬secretOk then ⟨401, "Unauthorized".data, false, none⟩
  else
    match payload with
    | none => ⟨500, "Internal error".data, false, none⟩
    | some job =>
      match slackWebhookUrl with
      | none => ⟨500, "Slack not configured".data, false, none⟩
      | some _ =>
        match buildJobUrl job.url with
        | none => ⟨500, "Internal error".data, false, none⟩
        | some _ =>
          match slackOutcome with
          | SlackOutcome.netThrow => ⟨500, "Internal error".data, false, none⟩
          | SlackOutcome.httpErr => ⟨500, "Slack API error".data, false, none⟩
          | SlackOutcome.ok =>
            ⟨200, "Notification sent".data, true,
              some (sendToTelegram tgBotToken tgChannelId tgOutcome job)⟩

/-! ### The job mutation server actions of src/lib/actions/jobs.ts -/

/-- User roles of the `profiles` table. -/
inductive Role
  | owner
  | admin
  | user
deriving DecidableEq, Repr

/-- The caller's profile row (`user_role` is all the actions branch on;
email and full name only feed the analytics payload). -/
structure Profile where
  user_role : Role
deriving DecidableEq, Repr

/-- A `formData.get` result is absent (`null`) or a string; both `null`
and the empty string are falsy in the `!field` checks. -/
def missingField : Option String → Bool
  | none => true
  | some s => s.isEmpty

/-- The four form fields of a creation request. -/
structure AddJobInput where
  title : Option String
  company : Option String
  location : Option String
  url : Option String
deriving DecidableEq, Repr

/-- The persisted job row projection the claims speak about. -/
structure JobRow where
  title : String
  company : String
  location : String
  url : String
  is_active : Bool
deriving DecidableEq, Repr

/-- Observable outcome of `addJob`: the returned form state, the inserted
row (when the insert succeeded), and the amount passed to the `add_points`
elevated call (`none` when the call is not made). -/
structure AddJobResult where
  success : Bool
  error : Option String
  inserted : Option JobRow
  pointsCall : Option Nat
deriving DecidableEq, Repr

/-- Model of `addJob` (src/lib/actions/jobs.ts): authenticate, authorize
admin/owner, require the four fields, parse the URL strictly, insert the
row verbatim (`insertOk` models the backend outcome), then call
`add_points` with 100; a points failure (`pointsOk = false`) is logged
and swallowed, so the result does not depend on it. -/
def addJob (user : Option String) (profile : Option Profile)
    (input : AddJobInput) (insertOk : Bool) (pointsOk : Bool) :
    AddJobResult :=
  match user with
  | none => ⟨false, some "Not authenticated", none, none⟩
  | some _ =>
    match profile with
    | none => ⟨false, some "Not authorized", none, none⟩
    | some p =>
      if p.user_role ≠ Role.admin ∧ p.user_role ≠ Role.owner then
        ⟨false, some "Not authorized", none, none⟩
      else if missingField input.title || missingField input.company ||
          missingField input.location || missingField input.url then
        ⟨false, some "All fields are required", none, none⟩
      else
        match parseURL (input.url.getD "").data with
        | none => ⟨false, some "Please enter a valid URL", none, none⟩
        | some _ =>
          if insertOk = false then
            ⟨false, some "Failed to add job. Please try again.", none, none⟩
          else
            ⟨true, none,
              some ⟨input.title.getD "", input.company.getD "",
                input.location.getD "", input.url.getD "", true⟩,
              some 100⟩

/-- Digits-to-number accumulator for the parseInt model. -/
def digitsToNat (l : List Char) : Nat :=
  l.foldl (fun a c => 10 * a + (c.toNat - 48)) 0

/-- Model of JavaScript `parseInt(s, 10)`: skip leading spaces, accept an
optional sign, then read leading decimal digits; no digit means `NaN`
(`none`). -/
def jsParseInt (s : List Char) : Option Int :=
  let t := s.dropWhile (fun c => c = ' ')
  match t with
  | '-' :: rest =>
    let ds := rest.takeWhile Char.isDigit
    if ds.isEmpty then none else some (-(digitsToNat ds : Int))
  | '+' :: rest =>
    let ds := rest.takeWhile Char.isDigit
    if ds.isEmpty then none else some ((digitsToNat ds : Int))
  | u =>
    let ds := u.takeWhile Char.isDigit
    if ds.isEmpty then none else some ((digitsToNat ds : Int))

/-- The parsed id of the update form (`parseInt(formData.get('id'))`):
an absent field coerces to `NaN`. -/
def parsedId : Option String → Option Int
  | none => none
  | some s => jsParseInt s.data

/-- The form fields of an update request. -/
structure UpdateJobInput where
  id : Option String
  title : Option String
  company : Option String
  location : Option String
  url : Option String
  is_active : Option String
deriving DecidableEq, Repr

/-- Observable outcome of `updateJob`. -/
structure UpdateJobResult where
  success : Bool
  error : Option String
  updated : Option JobRow
  pointsCall : Option Nat
deriving DecidableEq, Repr

/-- Model of `updateJob` (src/lib/actions/jobs.ts): authenticate,
authorize admin/owner, validate the id (`!id || isNaN(id)` rejects `NaN`
and `0`), require the four fields, parse the URL, read the prior row
(`originalJob`, `none` when the fetch returned nothing), persist
(`updateOk`), then award 200 points exactly when the prior row was active
and the new `is_active` is false; a points failure is swallowed, so the
result does not depend on `pointsOk`. -/
def updateJob (user : Option String) (profile : Option Profile)
    (input : UpdateJobInput) (originalJob : Option JobRow)
    (updateOk : Bool) (pointsOk : Bool) : UpdateJobResult :=
  match user with
  | none => ⟨false, some "Not authenticated", none, none⟩
  | some _ =>
    match profile with
    | none => ⟨false, some "Not authorized", none, none⟩
    | some p =>
      if p.user_role ≠ Role.admin ∧ p.user_role ≠ Role.owner then
        ⟨false, some "Not authorized", none, none⟩
      else if parsedId input.id = none ∨ parsedId input.id = some 0 then
        ⟨false, some "Invalid job ID", none, none⟩
      else if missingField input.title || missingField input.company ||
          missingField input.location || missingField input.url then
        ⟨false, some "All fields are required", none, none⟩
      else
        match parseURL (input.url.getD "").data with
        | none => ⟨false, some "Please enter a valid URL", none, none⟩
        | some _ =>
          if updateOk = false then
            ⟨false, some "Failed to update job. Please try again.", none,
              none⟩
          else
            let isActive := decide (input.is_active = some "true")
            let wasDeactivated :=
              (match originalJob with
               | some r => r.is_active
               | none => false) && !isActive
            ⟨true, none,
              some ⟨input.title.getD "", input.company.getD "",
                input.location.getD "", input.url.getD "", isActive⟩,
              if wasDeactivated then some 200 else none⟩

/-- Model of the add-job form's `handleUrlChange`
(src/components/add-job-sheet.tsx): the URL field state is set to the
cleaned input as the user types, so the value a form submission carries
for a typed URL is its cleaning.  The component defines a local
`cleanTrackingParams` whose body is textually identical to the one in
src/lib/utils.ts. -/
def handleUrlChange (inputUrl : String) : String :=
  cleanTrackingParamsStr inputUrl

/-- Boolean substring test (used to state what an error message names). -/
def containsSub : List Char → List Char → Bool
  | pat, [] => pat.isEmpty
  | pat, c :: rest => startsWithChars pat (c :: rest) || containsSub pat rest

/-! ### Claim theorems for the job mutation service -/

theorem role_guard_false {p0 : Profile}
    (hrole : p0.user_role = Role.admin ∨ p0.user_role = Role.owner) :
    ¬(p0.user_role ≠ Role.admin ∧ p0.user_role ≠ Role.owner) := by
  rcases hrole with h | h <;> simp [h]

/-- C3: an update whose prior `is_active` is true and whose new
`is_active` is false calls the points ledger with exactly 200; any other
update transition makes no points call (0 points); a creation calls it
with exactly 100.  `pointsCall` records the amount passed to the
`add_points` elevated call. -/
theorem C3_points_policy :
    (∀ (uu : String) (p0 : Profile) (input : UpdateJobInput)
        (prior : JobRow) (pointsOk : Bool),
      p0.user_role = Role.admin ∨ p0.user_role = Role.owner →
      ¬(parsedId input.id = none ∨ parsedId input.id = some 0) →
      (missingField input.title || missingField input.company ||
        missingField input.location || missingField input.url) = false →
      ∀ u, parseURL (input.url.getD "").data = some u →
      (updateJob (some uu) (some p0) input (some prior) true
          pointsOk).pointsCall =
        (if prior.is_active = true ∧ input.is_active ≠ some "true"
         then some 200 else none)) ∧
    (∀ (uu : String) (p0 : Profile) (input : AddJobInput) (pointsOk : Bool),
      p0.user_role = Role.admin ∨ p0.user_role = Role.owner →
      (missingField input.title || missingField input.company ||
        missingField input.location || missingField input.url) = false →
      ∀ u, parseURL (input.url.getD "").data = some u →
      (addJob (some uu) (some p0) input true pointsOk).pointsCall =
        some 100) := by
  constructor
  · intro uu p0 input prior pOk hrole hid hmiss u hurl
    simp only [updateJob, if_neg (role_guard_false hrole), if_neg hid]
    rw [if_neg (by simp [hmiss]), hurl]
    simp only [reduceCtorEq, reduceIte]
    by_cases hact : input.is_active = some "true"
    · simp [hact]
    · by_cases hpa : prior.is_active = true
      · simp [hact, hpa]
      · simp [hact, hpa]
  · intro uu p0 input pOk hrole hmiss u hurl
    simp only [addJob, if_neg (role_guard_false hrole)]
    rw [if_neg (by simp [hmiss]), hurl]
    simp only [reduceCtorEq, reduceIte]

/-- Witness for C3 at concrete deactivation and creation requests. -/
theorem C3_witness :
    (updateJob (some "u") (some ⟨Role.owner⟩)
        ⟨some "7", some "T", some "C", some "L", some "https://a.com/x",
          some "false"⟩
        (some ⟨"T", "C", "L", "https://a.com/x", true⟩) true
        true).pointsCall =
      (if (⟨"T", "C", "L", "https://a.com/x", true⟩ : JobRow).is_active
            = true ∧
          (some "false" : Option String) ≠ some "true"
       then some 200 else none) ∧
    (addJob (some "u") (some ⟨Role.admin⟩)
        ⟨some "T", some "C", some "L", some "https://a.com/x"⟩ true
        true).pointsCall = some 100 :=
  ⟨C3_points_policy.1 "u" ⟨Role.owner⟩
      ⟨some "7", some "T", some "C", some "L", some "https://a.com/x",
        some "false"⟩
      ⟨"T", "C", "L", "https://a.com/x", true⟩ true (Or.inr rfl)
      (by decide) (by decide) ⟨"https://a.com/x".data, none, none⟩
      (by decide),
    C3_points_policy.2 "u" ⟨Role.admin⟩
      ⟨some "T", some "C", some "L", some "https://a.com/x"⟩ true
      (Or.inl rfl) (by decide) ⟨"https://a.com/x".data, none, none⟩
      (by decide)⟩

/-- C4: when the insert succeeds but the points increment fails, the
creation still reports success, the inserted row stands, and the whole
observable outcome is identical to the one with a successful points
call — the points failure is logged only. -/
theorem C4_points_soft_fail (uu : String) (p0 : Profile)
    (input : AddJobInput)
    (hrole : p0.user_role = Role.admin ∨ p0.user_role = Role.owner)
    (hmiss : (missingField input.title || missingField input.company ||
      missingField input.location || missingField input.url) = false)
    (u : UrlModel) (hurl : parseURL (input.url.getD "").data = some u) :
    (addJob (some uu) (some p0) input true false).success = true ∧
    (addJob (some uu) (some p0) input true false).inserted =
      some ⟨input.title.getD "", input.company.getD "",
        input.location.getD "", input.url.getD "", true⟩ ∧
    addJob (some uu) (some p0) input true false =
      addJob (some uu) (some p0) input true true := by
  have hred : ∀ pOk : Bool, addJob (some uu) (some p0) input true pOk =
      ⟨true, none, some ⟨input.title.getD "", input.company.getD "",
        input.location.getD "", input.url.getD "", true⟩, some 100⟩ := by
    intro pOk
    simp only [addJob, if_neg (role_guard_false hrole)]
    rw [if_neg (by simp [hmiss]), hurl]
    simp only [reduceCtorEq, reduceIte]
  rw [hred false, hred true]
  exact ⟨rfl, rfl, rfl⟩

/-- Witness for C4 at a concrete creation with a failing points call. -/
theorem C4_witness :
    (addJob (some "u") (some ⟨Role.admin⟩)
        ⟨some "T", some "C", some "L", some "https://a.com/x"⟩ true
        false).success = true ∧
    (addJob (some "u") (some ⟨Role.admin⟩)
        ⟨some "T", some "C", some "L", some "https://a.com/x"⟩ true
        false).inserted =
      some ⟨(some "T" : Option String).getD "",
        (some "C" : Option String).getD "",
        (some "L" : Option String).getD "",
        (some "https://a.com/x" : Option String).getD "", true⟩ ∧
    addJob (some "u") (some ⟨Role.admin⟩)
        ⟨some "T", some "C", some "L", some "https://a.com/x"⟩ true false =
      addJob (some "u") (some ⟨Role.admin⟩)
        ⟨some "T", some "C", some "L", some "https://a.com/x"⟩ true true :=
  C4_points_soft_fail "u" ⟨Role.admin⟩
    ⟨some "T", some "C", some "L", some "https://a.com/x"⟩ (Or.inl rfl)
    (by decide) ⟨"https://a.com/x".data, none, none⟩ (by decide)

/-- C2 counterexample: a valid authorized creation request whose URL
carries a `utm_source` tracking parameter succeeds and stores that URL
verbatim — the stored URL is not `clean(inputUrl)`. -/
theorem C2_counterexample :
    (addJob (some "u1") (some ⟨Role.admin⟩)
        ⟨some "T", some "C", some "L",
          some "https://example.com/?utm_source=news"⟩ true true).success
      = true ∧
    (addJob (some "u1") (some ⟨Role.admin⟩)
        ⟨some "T", some "C", some "L",
          some "https://example.com/?utm_source=news"⟩ true true).inserted =
      some ⟨"T", "C", "L", "https://example.com/?utm_source=news", true⟩ ∧
    cleanTrackingParamsStr "https://example.com/?utm_source=news" =
      "https://example.com/" ∧
    ("https://example.com/?utm_source=news" : String) ≠
      "https://example.com/" := by
  refine ⟨by decide, by decide, by decide, by decide⟩

/-- C2 (amended): a valid authorized creation request succeeds and stores
the submitted URL verbatim — `addJob` performs no canonicalization; the
canonicalization the spec describes happens client-side in the add-job
form, whose `handleUrlChange` replaces the URL field with its cleaning as
it is typed, so a request submitted through the form stores
`clean(typedUrl)`. -/
theorem C2_stored_url (uu : String) (p0 : Profile) (input : AddJobInput)
    (pointsOk : Bool)
    (hrole : p0.user_role = Role.admin ∨ p0.user_role = Role.owner)
    (hmiss : (missingField input.title || missingField input.company ||
      missingField input.location || missingField input.url) = false)
    (u : UrlModel) (hurl : parseURL (input.url.getD "").data = some u) :
    (addJob (some uu) (some p0) input true pointsOk).success = true ∧
    (addJob (some uu) (some p0) input true pointsOk).inserted =
      some ⟨input.title.getD "", input.company.getD "",
        input.location.getD "", input.url.getD "", true⟩ ∧
    (∀ typed : String, input.url = some (handleUrlChange typed) →
      (addJob (some uu) (some p0) input true pointsOk).inserted =
        some ⟨input.title.getD "", input.company.getD "",
          input.location.getD "", cleanTrackingParamsStr typed, true⟩) := by
  have hred : addJob (some uu) (some p0) input true pointsOk =
      ⟨true, none, some ⟨input.title.getD "", input.company.getD "",
        input.location.getD "", input.url.getD "", true⟩, some 100⟩ := by
    simp only [addJob, if_neg (role_guard_false hrole)]
    rw [if_neg (by simp [hmiss]), hurl]
    simp only [reduceCtorEq, reduceIte]
  refine ⟨by rw [hred], by rw [hred], ?_⟩
  intro typed hform
  rw [hred]
  simp only [hform, handleUrlChange, Option.getD_some]

/-- Witness for C2: the form cleans the typed URL, and the submitted
cleaned URL is stored as the cleaning of what was typed. -/
theorem C2_witness :
    (addJob (some "u1") (some ⟨Role.admin⟩)
        ⟨some "T", some "C", some "L", some "https://example.com/"⟩ true
        true).success = true ∧
    (addJob (some "u1") (some ⟨Role.admin⟩)
        ⟨some "T", some "C", some "L", some "https://example.com/"⟩ true
        true).inserted =
      some ⟨(some "T" : Option String).getD "",
        (some "C" : Option String).getD "",
        (some "L" : Option String).getD "",
        cleanTrackingParamsStr "https://example.com/?utm_source=news",
        true⟩ :=
  ⟨(C2_stored_url "u1" ⟨Role.admin⟩
      ⟨some "T", some "C", some "L", some "https://example.com/"⟩ true
      (Or.inl rfl) (by decide) ⟨"https://example.com/".data, none, none⟩
      (by decide)).1,
    (C2_stored_url "u1" ⟨Role.admin⟩
      ⟨some "T", some "C", some "L", some "https://example.com/"⟩ true
      (Or.inl rfl) (by decide) ⟨"https://example.com/".data, none, none⟩
      (by decide)).2.2 "https://example.com/?utm_source=news" (by decide)⟩

/-- C5 counterexample: a request missing only `title` fails with the
generic message `All fields are required`, which does not name `title`
(no such substring), and no row is persisted. -/
theorem C5_counterexample :
    addJob (some "u1") (some ⟨Role.admin⟩)
        ⟨none, some "Acme", some "Lisbon", some "https://a.com/x"⟩ true
        true =
      ⟨false, some "All fields are required", none, none⟩ ∧
    containsSub "title".data "All fields are required".data = false := by
  refine ⟨by decide, by decide⟩

/-- C5 (amended): any creation or update request from an authorized
caller with one or more required fields missing or empty fails with the
single generic validation message `All fields are required` — the missing
fields are not listed by name — and no row is persisted. -/
theorem C5_validation_generic :
    containsSub "title".data "All fields are required".data = false ∧
    (∀ (uu : String) (p0 : Profile) (input : AddJobInput)
        (insertOk pointsOk : Bool),
      p0.user_role = Role.admin ∨ p0.user_role = Role.owner →
      (missingField input.title || missingField input.company ||
        missingField input.location || missingField input.url) = true →
      addJob (some uu) (some p0) input insertOk pointsOk =
        ⟨false, some "All fields are required", none, none⟩) ∧
    (∀ (uu : String) (p0 : Profile) (input : UpdateJobInput)
        (orig : Option JobRow) (updateOk pointsOk : Bool),
      p0.user_role = Role.admin ∨ p0.user_role = Role.owner →
      ¬(parsedId input.id = none ∨ parsedId input.id = some 0) →
      (missingField input.title || missingField input.company ||
        missingField input.location || missingField input.url) = true →
      updateJob (some uu) (some p0) input orig updateOk pointsOk =
        ⟨false, some "All fields are required", none, none⟩) := by
  refine ⟨by decide, ?_, ?_⟩
  · intro uu p0 input iOk pOk hrole hmiss
    simp only [addJob, if_neg (role_guard_false hrole)]
    rw [if_pos (by simp [hmiss])]
  · intro uu p0 input orig uOk pOk hrole hid hmiss
    simp only [updateJob, if_neg (role_guard_false hrole), if_neg hid]
    rw [if_pos (by simp [hmiss])]

/-- Witness for C5 at concrete requests missing only the title. -/
theorem C5_witness :
    containsSub "title".data "All fields are required".data = false ∧
    addJob (some "u1") (some ⟨Role.admin⟩)
        ⟨none, some "Acme", some "Lisbon", some "https://a.com/x"⟩ true
        true =
      ⟨false, some "All fields are required", none, none⟩ ∧
    updateJob (some "u1") (some ⟨Role.owner⟩)
        ⟨some "7", some "", some "Acme", some "Lisbon",
          some "https://a.com/x", some "true"⟩ none true true =
      ⟨false, some "All fields are required", none, none⟩ :=
  ⟨C5_validation_generic.1,
    C5_validation_generic.2.1 "u1" ⟨Role.admin⟩
      ⟨none, some "Acme", some "Lisbon", some "https://a.com/x"⟩ true true
      (Or.inl rfl) (by decide),
    C5_validation_generic.2.2 "u1" ⟨Role.owner⟩
      ⟨some "7", some "", some "Acme", some "Lisbon",
        some "https://a.com/x", some "true"⟩ none true true (Or.inr rfl)
      (by decide) (by decide)⟩

/-! ### Claim theorems for the notification fan-out -/

/-- C1 counterexample: with a fully configured, working Telegram channel,
a missing Slack configuration — and likewise a non-2xx Slack response —
makes the handler return 500 without attempting Telegram at all: a
failure in one channel does prevent the other channel's attempt, and the
handler does not return its accepted response. -/
theorem C1_counterexample :
    POST true (some ⟨1, "T".data, "C".data, "L".data,
        "https://a.com/x".data, none⟩)
      none SlackOutcome.ok (some "tok".data) (some "chan".data)
      TgOutcome.apiOk =
      ⟨500, "Slack not configured".data, false, none⟩ ∧
    POST true (some ⟨1, "T".data, "C".data, "L".data,
        "https://a.com/x".data, none⟩)
      (some "https://hooks.slack.example/x".data) SlackOutcome.httpErr
      (some "tok".data) (some "chan".data) TgOutcome.apiOk =
      ⟨500, "Slack API error".data, false, none⟩ := by
  refine ⟨by decide, by decide⟩

/-- C1 (amended): the fan-out is asymmetric.  After a successful Slack
send, Telegram is attempted and any Telegram-side failure (missing
configuration, `ok: false` response, network error) is recorded in that
channel's result while the handler still returns 200.  A Slack-side
failure, however, short-circuits: missing Slack configuration, a non-2xx
Slack response, or a Slack network error each return 500 and Telegram is
never attempted. -/
theorem C1_fanout_asymmetric :
    (∀ (job : TgJob) (surl : List Char) (tgTok tgCh : Option (List Char))
        (tgOut : TgOutcome) (u2 : List Char),
      buildJobUrl job.url = some u2 →
      POST true (some job) (some surl) SlackOutcome.ok tgTok tgCh tgOut =
        ⟨200, "Notification sent".data, true,
          some (sendToTelegram tgTok tgCh tgOut job)⟩) ∧
    (∀ (job : TgJob) (tgCh : Option (List Char)) (tgOut : TgOutcome),
      sendToTelegram none tgCh tgOut job =
        ⟨false, some "Missing Telegram configuration".data⟩) ∧
    (∀ (job : TgJob) (tok ch d : List Char),
      sendToTelegram (some tok) (some ch) (TgOutcome.apiErr d) job =
        ⟨false, some d⟩) ∧
    (∀ (job : TgJob) (tok ch m : List Char),
      sendToTelegram (some tok) (some ch) (TgOutcome.netThrow m) job =
        ⟨false, some m⟩) ∧
    (∀ (job : TgJob) (surl : List Char) (tgTok tgCh : Option (List Char))
        (tgOut : TgOutcome),
      POST true (some job) none SlackOutcome.ok tgTok tgCh tgOut =
        ⟨500, "Slack not configured".data, false, none⟩ ∧
      (∀ u2 : List Char, buildJobUrl job.url = some u2 →
        POST true (some job) (some surl) SlackOutcome.httpErr tgTok tgCh
            tgOut =
          ⟨500, "Slack API error".data, false, none⟩ ∧
        POST true (some job) (some surl) SlackOutcome.netThrow tgTok tgCh
            tgOut =
          ⟨500, "Internal error".data, false, none⟩)) := by
  refine ⟨?_, ?_, ?_, ?_, ?_⟩
  · intro job surl tgTok tgCh tgOut u2 hu
    simp only [POST, not_true, if_neg, if_false, hu, reduceIte]
  · intro job tgCh tgOut
    cases tgCh <;> rfl
  · intro job tok ch d
    rfl
  · intro job tok ch m
    rfl
  · intro job surl tgTok tgCh tgOut
    refine ⟨by simp only [POST, not_true, if_false, reduceIte], ?_⟩
    intro u2 hu
    constructor
    · simp only [POST, not_true, if_false, hu, reduceIte]
    · simp only [POST, not_true, if_false, hu, reduceIte]

/-- Witness for C1: a successful Slack send with an unconfigured Telegram
channel still yields the 200 response, with the Telegram failure recorded
in its channel result. -/
theorem C1_witness :
    POST true (some ⟨1, "T".data, "C".data, "L".data,
        "https://a.com/x".data, none⟩)
      (some "https://hooks.slack.example/x".data) SlackOutcome.ok none none
      TgOutcome.apiOk =
      ⟨200, "Notification sent".data, true,
        some (sendToTelegram none none TgOutcome.apiOk
          ⟨1, "T".data, "C".data, "L".data, "https://a.com/x".data,
            none⟩)⟩ :=
  C1_fanout_asymmetric.1
    ⟨1, "T".data, "C".data, "L".data, "https://a.com/x".data, none⟩
    "https://hooks.slack.example/x".data none none TgOutcome.apiOk
    "https://a.com/x?utm_source=LisboaUX".data (by decide)

/-! ### HTML escaping facts for the bot-API message -/

theorem replaceChar_append (t : Char) (rep a b : List Char) :
    replaceChar t rep (a ++ b) = replaceChar t rep a ++ replaceChar t rep b := by
  induction a with
  | nil => rfl
  | cons c rest ih =>
    show (if c = t then rep else [c]) ++ replaceChar t rep (rest ++ b) =
      ((if c = t then rep else [c]) ++ replaceChar t rep rest) ++
        replaceChar t rep b
    rw [ih, List.append_assoc]

/-- The three chained replaces act character by character. -/
theorem escapeHtml_eq_escapeChars (s : List Char) :
    escapeHtml s = escapeChars s := by
  induction s with
  | nil => rfl
  | cons c rest ih =>
    show replaceChar '>' "&gt;".data (replaceChar '<' "&lt;".data
      (replaceChar '&' "&amp;".data (c :: rest))) = escMap c ++ escapeChars rest
    rw [show replaceChar '&' "&amp;".data (c :: rest) =
        (if c = '&' then "&amp;".data else [c]) ++
          replaceChar '&' "&amp;".data rest from rfl,
      replaceChar_append, replaceChar_append]
    have hrest : replaceChar '>' "&gt;".data (replaceChar '<' "&lt;".data
        (replaceChar '&' "&amp;".data rest)) = escapeChars rest := ih
    rw [hrest]
    congr 1
    by_cases ha : c = '&'
    · subst ha; rfl
    · by_cases hl : c = '<'
      · subst hl; rfl
      · by_cases hg : c = '>'
        · subst hg; rfl
        · simp [replaceChar, escMap, ha, hl, hg]

theorem lt_not_mem_escMap (c : Char) : '<' ∉ escMap c := by
  unfold escMap
  by_cases h1 : c = '&'
  · rw [if_pos h1]; decide
  · rw [if_neg h1]
    by_cases h2 : c = '<'
    · rw [if_pos h2]; decide
    · rw [if_neg h2]
      by_cases h3 : c = '>'
      · rw [if_pos h3]; decide
      · rw [if_neg h3]
        intro hm
        simp at hm
        exact h2 hm.symm

theorem gt_not_mem_escMap (c : Char) : '>' ∉ escMap c := by
  unfold escMap
  by_cases h1 : c = '&'
  · rw [if_pos h1]; decide
  · rw [if_neg h1]
    by_cases h2 : c = '<'
    · rw [if_pos h2]; decide
    · rw [if_neg h2]
      by_cases h3 : c = '>'
      · rw [if_pos h3]; decide
      · rw [if_neg h3]
        intro hm
        simp at hm
        exact h3 hm.symm

theorem lt_not_mem_escapeChars (s : List Char) : '<' ∉ escapeChars s := by
  induction s with
  | nil => simp [escapeChars]
  | cons c rest ih =>
    rw [escapeChars]
    intro hm
    rcases List.mem_append.mp hm with hm | hm
    · exact lt_not_mem_escMap c hm
    · exact ih hm

theorem gt_not_mem_escapeChars (s : List Char) : '>' ∉ escapeChars s := by
  induction s with
  | nil => simp [escapeChars]
  | cons c rest ih =>
    rw [escapeChars]
    intro hm
    rcases List.mem_append.mp hm with hm | hm
    · exact gt_not_mem_escMap c hm
    · exact ih hm

/-- An ampersand scanner: every `&` must begin one of the three entities
the escaper can produce. -/
def ampsEscaped : List Char → Bool
  | [] => true
  | c :: rest =>
    (if c = '&' then
      startsWithChars "amp;".data rest || startsWithChars "lt;".data rest ||
        startsWithChars "gt;".data rest
     else true) && ampsEscaped rest

theorem ampsEscaped_append_no_amp {a : List Char} (h : '&' ∉ a)
    (b : List Char) : ampsEscaped (a ++ b) = ampsEscaped b := by
  induction a with
  | nil => rfl
  | cons c rest ih =>
    have hc : c ≠ '&' := fun hc => h (hc ▸ List.mem_cons_self c rest)
    have hrest : '&' ∉ rest := fun hm => h (List.mem_cons_of_mem c hm)
    have heq : ampsEscaped (c :: (rest ++ b)) =
        ((if c = '&' then
            startsWithChars "amp;".data (rest ++ b) ||
              startsWithChars "lt;".data (rest ++ b) ||
              startsWithChars "gt;".data (rest ++ b)
          else true) && ampsEscaped (rest ++ b)) := rfl
    rw [List.cons_append, heq, if_neg hc, Bool.true_and, ih hrest]

theorem ampsEscaped_escMap_append (c : Char) (b : List Char) :
    ampsEscaped (escMap c ++ b) = ampsEscaped b := by
  unfold escMap
  by_cases h1 : c = '&'
  · rw [if_pos h1]
    simp [ampsEscaped, startsWithChars]
  · rw [if_neg h1]
    by_cases h2 : c = '<'
    · rw [if_pos h2]
      simp [ampsEscaped, startsWithChars]
    · rw [if_neg h2]
      by_cases h3 : c = '>'
      · rw [if_pos h3]
        simp [ampsEscaped, startsWithChars]
      · rw [if_neg h3]
        exact ampsEscaped_append_no_amp (by simpa using fun hc => h1 hc.symm) b

theorem ampsEscaped_escapeChars_append (s b : List Char) :
    ampsEscaped (escapeChars s ++ b) = ampsEscaped b := by
  induction s with
  | nil => rfl
  | cons c rest ih =>
    rw [escapeChars, List.append_assoc, ampsEscaped_escMap_append, ih]

theorem ampsEscaped_of_no_amp {a : List Char} (h : '&' ∉ a) :
    ampsEscaped a = true := by
  have := ampsEscaped_append_no_amp h []
  rw [List.append_nil] at this
  rw [this]
  rfl

/-! ### Claim theorems for the bot-API message escaping -/

/-- C9 counterexample: for a job whose URL contains `&` (and no short
code), the composed message interpolates that user-supplied URL verbatim,
so the message contains an unescaped `&` — the URL is user-supplied text
that is not escaped before interpolation. -/
theorem C9_counterexample :
    telegramMessage ⟨1, "T".data, "C".data, "L".data,
        "https://x.com/?a=1&b=2".data, none⟩ =
      "<b>T</b>\nC\n📍L\nhttps://x.com/?a=1&b=2".data ∧
    ampsEscaped (telegramMessage ⟨1, "T".data, "C".data, "L".data,
        "https://x.com/?a=1&b=2".data, none⟩) = false := by
  refine ⟨by decide, by decide⟩

/-- C9 (amended): the bot-API path escapes the three interpolated text
fields — title, company and location pass through `escapeHtml`, whose
output contains no raw `<` or `>` and only entity ampersands — but the
URL line is interpolated verbatim; consequently the composed message has
every user-supplied `&`, `<`, `>` escaped except those arriving through
the URL (when the URL is `&`-free the whole message scans clean). -/
theorem C9_escaping_policy :
    (∀ s : List Char, '<' ∉ escapeHtml s ∧ '>' ∉ escapeHtml s ∧
      ampsEscaped (escapeHtml s) = true) ∧
    (∀ (i : Int) (t c l u : List Char) (sc : Option (List Char)),
      telegramMessage ⟨i, t, c, l, u, sc⟩ =
        "<b>".data ++ escapeHtml t ++ "</b>\n".data ++ escapeHtml c ++
          "\n📍".data ++ escapeHtml l ++ "\n".data ++
          telegramJobUrl ⟨i, t, c, l, u, sc⟩) ∧
    (∀ (i : Int) (t c l u : List Char), '&' ∉ u →
      ampsEscaped (telegramMessage ⟨i, t, c, l, u, none⟩) = true) := by
  refine ⟨?_, ?_, ?_⟩
  · intro s
    rw [escapeHtml_eq_escapeChars]
    refine ⟨lt_not_mem_escapeChars s, gt_not_mem_escapeChars s, ?_⟩
    have := ampsEscaped_escapeChars_append s []
    rw [List.append_nil] at this
    rw [this]
    rfl
  · intro i t c l u sc
    rfl
  · intro i t c l u hu
    show ampsEscaped ("<b>".data ++ escapeHtml t ++ "</b>\n".data ++
      escapeHtml c ++ "\n📍".data ++ escapeHtml l ++ "\n".data ++ u) = true
    simp only [List.append_assoc]
    rw [ampsEscaped_append_no_amp (by decide),
      escapeHtml_eq_escapeChars, ampsEscaped_escapeChars_append,
      ampsEscaped_append_no_amp (by decide),
      escapeHtml_eq_escapeChars, ampsEscaped_escapeChars_append,
      ampsEscaped_append_no_amp (by decide),
      escapeHtml_eq_escapeChars, ampsEscaped_escapeChars_append,
      ampsEscaped_append_no_amp (by decide)]
    exact ampsEscaped_of_no_amp hu

/-- Witness for C9: escaped fields with markup characters scan clean, and
a message whose URL is `&`-free contains only escaped ampersands. -/
theorem C9_witness :
    ('<' ∉ escapeHtml "A&B<i>".data ∧ '>' ∉ escapeHtml "A&B<i>".data ∧
      ampsEscaped (escapeHtml "A&B<i>".data) = true) ∧
    ampsEscaped (telegramMessage ⟨0, "A&B".data, "C<".data, "L>".data,
      "https://ok.example/x".data, none⟩) = true :=
  ⟨C9_escaping_policy.1 "A&B<i>".data,
    C9_escaping_policy.2.2 0 "A&B".data "C<".data "L>".data
      "https://ok.example/x".data (by decide)⟩

end LisboaUX
